import Mathlib

/-!
# Verification of `patch_resolution.py` (thl-mods)

A shallow embedding of the resolution patcher: byte buffers are `List Nat`,
Python `bytes`/`bytearray` slicing is modelled by `slice`/`setSlice`,
`struct.pack('<I', v)` by `packU32`, and the two core operations
`create_patches` and `apply_patches` are translated line by line.
Printed warnings are modelled as structured `SkipWarning` values carrying
exactly the data the source interpolates into the printed line.
-/

set_option autoImplicit false

namespace PatchRes

/-- The four little-endian bytes of `n` (defined for every `n`, used for
`n < 2^32`); this is the value of `struct.pack('<I', n)`. -/
def u32le (n : Nat) : List Nat :=
  [n % 256, n / 256 % 256, n / 65536 % 256, n / 16777216 % 256]

/-- `struct.pack('<I', v)` on an arbitrary Python `int`: raises `struct.error`
unless `0 ≤ v < 2^32`. -/
def packU32 (v : Int) : Except String (List Nat) :=
  if 0 ≤ v ∧ v < 4294967296 then Except.ok (u32le v.toNat)
  else Except.error "struct.error: argument out of range for I format code"

/-- Python slice read `data[start:stop]` for non-negative indices: the elements
at positions `[start, stop)`, clamped to the list (never raises). -/
def slice (d : List Nat) (start stop : Nat) : List Nat :=
  (d.take stop).drop start

/-- Python slice assignment `data[start:stop] = r` on a bytearray, for
non-negative `start ≤ stop` (clamped; never raises, may resize the buffer when
the addressed slice is shorter than `r`). -/
def setSlice (d : List Nat) (start stop : Nat) (r : List Nat) : List Nat :=
  d.take start ++ r ++ d.drop stop

/-- The `Patch` dataclass of the source: a plain record, with no
construction-time validation of any field. -/
structure Patch where
  offset : Nat
  original : List Nat
  replacement : List Nat
  description : String
deriving DecidableEq

/-- The data interpolated into the printed line
`WARNING: Mismatch at 0x{offset:X}, skipping: {desc}` of `create_patches`:
the offset and the description. -/
structure SkipWarning where
  offset : Nat
  description : String
deriving DecidableEq

/-- The `code_patches` list of `create_patches`: the four code-site entries
`(offset, orig, new, desc)`, where `orig` is the packed original width or
height and `new` the packed target value. -/
def codeSites (nw nh : List Nat) : List (Nat × List Nat × List Nat × String) :=
  [(0x054DF7, u32le 3840, nw, "Width getter (mov eax, 3840)"),
   (0x4B4305, u32le 3840, nw, "Resolution param width (mov edx, 3840)"),
   (0x054D37, u32le 2160, nh, "Height getter (mov eax, 2160)"),
   (0x4B430B, u32le 2160, nh, "Resolution param height (mov r8d, 2160)")]

/-- The `for offset, orig, new, desc in code_patches` loop of `create_patches`:
each site whose current bytes equal `orig` contributes a `Patch` (in iteration
order); each other site contributes a printed mismatch warning. -/
def planCode (data : List Nat) :
    List (Nat × List Nat × List Nat × String) → List Patch × List SkipWarning
  | [] => ([], [])
  | (o, e, r, s) :: rest =>
    let prev := planCode data rest
    if slice data o (o + 4) = e then (Patch.mk o e r s :: prev.1, prev.2)
    else (prev.1, SkipWarning.mk o s :: prev.2)

/-- The body of `create_patches` after the four `struct.pack` calls succeeded:
the two resolution-table checks at `0xBDA4F0`/`0xBDA4F0 + 4`, then the
code-site loop.  Returns (accepted patches, printed mismatch warnings). -/
def plan (data : List Nat) (target_width target_height : Int)
    (nw nh : List Nat) : List Patch × List SkipWarning :=
  let table_offset : Nat := 0xBDA4F0
  let tablePatches :=
    (if slice data table_offset (table_offset + 4) = u32le 3840 then
      [Patch.mk table_offset (u32le 3840) nw
        ("Resolution table: 3840 -> " ++ toString target_width ++ " (width)")]
     else []) ++
    (if slice data (table_offset + 4) (table_offset + 8) = u32le 2160 then
      [Patch.mk (table_offset + 4) (u32le 2160) nh
        ("Resolution table: 2160 -> " ++ toString target_height ++ " (height)")]
     else [])
  let code := planCode data (codeSites nw nh)
  (tablePatches ++ code.1, code.2)

/-- `create_patches(data, target_width, target_height)`: packs the original and
target values (raising `struct.error` for a target outside `[0, 2^32)`, before
the buffer is examined) and then plans the six descriptors. -/
def create_patches (data : List Nat) (target_width target_height : Int) :
    Except String (List Patch × List SkipWarning) :=
  match packU32 target_width, packU32 target_height with
  | Except.error e, _ => Except.error e
  | Except.ok _, Except.error e => Except.error e
  | Except.ok nw, Except.ok nh =>
      Except.ok (plan data target_width target_height nw nh)

/-- One iteration of the `for patch in patches` loop of `apply_patches`: the
two `struct.unpack('<I', ...)` calls (each raises unless its argument is
exactly 4 bytes), then — when not a dry run — the slice write
`data[patch.offset : patch.offset + len(patch.replacement)] = patch.replacement`.
Returns the buffer after the iteration and the error, if one was raised. -/
def applyStep (dry_run : Bool) (d : List Nat) (p : Patch) :
    List Nat × Option String :=
  if p.original.length ≠ 4 then
    (d, some "struct.error: unpack requires a buffer of 4 bytes")
  else if p.replacement.length ≠ 4 then
    (d, some "struct.error: unpack requires a buffer of 4 bytes")
  else if dry_run then (d, none)
  else (setSlice d p.offset (p.offset + p.replacement.length) p.replacement, none)

/-- `apply_patches(data, patches, dry_run)`: the loop over the patches; stops
at the first raised error, returning the buffer state at that point (the
buffer is mutated in place, so earlier writes survive an error). -/
def apply_patches : List Nat → List Patch → Bool → List Nat × Option String
  | d, [], _ => (d, none)
  | d, p :: ps, dry_run =>
    match applyStep dry_run d p with
    | (d', none) => apply_patches d' ps dry_run
    | (d', some e) => (d', some e)

/-- Outcome of one run of `main` after the file was read: the returned exit
code, the final in-memory buffer, and whether the file was rewritten. -/
structure MainResult where
  exitCode : Nat
  finalData : List Nat
  fileWritten : Bool
deriving DecidableEq

/-- The core of `main` after loading the file (argument parsing, printing and
the backup copy elided): plan, bail out with exit code 1 on an empty plan,
otherwise apply and — outside dry-run mode — write the file back. -/
def runMain (data : List Nat) (width height : Int) (dry_run : Bool) :
    Except String MainResult :=
  match create_patches data width height with
  | Except.error e => Except.error e
  | Except.ok (patches, _) =>
    if patches = [] then Except.ok (MainResult.mk 1 data false)
    else
      match apply_patches data patches dry_run with
      | (_, some e) => Except.error e
      | (d', none) =>
        if dry_run then Except.ok (MainResult.mk 0 d' false)
        else Except.ok (MainResult.mk 0 d' true)

/-! ## Specification-side helpers (used only to state the claims) -/

/-- The six fixed descriptors of `create_patches` as
(offset, expected, replacement, description) tuples: the two resolution-table
entries followed by the four code sites. -/
def descriptorList (target_width target_height : Int) (nw nh : List Nat) :
    List (Nat × List Nat × List Nat × String) :=
  (0xBDA4F0, u32le 3840, nw,
    "Resolution table: 3840 -> " ++ toString target_width ++ " (width)") ::
  (0xBDA4F0 + 4, u32le 2160, nh,
    "Resolution table: 2160 -> " ++ toString target_height ++ " (height)") ::
  codeSites nw nh

/-- The `Patch` a descriptor tuple turns into when accepted. -/
def patchOf (e : Nat × List Nat × List Nat × String) : Patch :=
  Patch.mk e.1 e.2.1 e.2.2.1 e.2.2.2

/-- The first patch of `ps` whose 4-byte range covers index `i`, if any. -/
def coveringPatch (ps : List Patch) (i : Nat) : Option Patch :=
  ps.find? fun p => decide (p.offset ≤ i) && decide (i < p.offset + 4)

/-- The byte expected at index `i` after committing `ps` over `old`: the
covering patch's replacement byte, otherwise the old byte. -/
def patchedByte (old : List Nat) (ps : List Patch) (i : Nat) : Option Nat :=
  match coveringPatch ps i with
  | some p => p.replacement[i - p.offset]?
  | none => old[i]?

/-- Two patches touch disjoint 4-byte ranges. -/
def RangesDisjoint (p q : Patch) : Prop :=
  p.offset + 4 ≤ q.offset ∨ q.offset + 4 ≤ p.offset

/-- Every patch of `ps` targets an in-bounds 4-byte range of `d` with 4-byte
original and replacement fields. -/
def wellFormedFor (d : List Nat) (ps : List Patch) : Bool :=
  ps.all fun p =>
    decide (p.offset + 4 ≤ d.length) && (p.original.length == 4) &&
      (p.replacement.length == 4)

/-- Every patch of `ps` has original and replacement of equal length. -/
def allLensMatch (ps : List Patch) : Bool :=
  ps.all fun p => p.original.length == p.replacement.length

/-- No warning of `ws` concerns one of the two resolution-table offsets. -/
def noTableWarnings (ws : List SkipWarning) : Bool :=
  ws.all fun w => !(w.offset == 0xBDA4F0) && !(w.offset == 0xBDA4F0 + 4)

/-- The accepted-patch list of a `create_patches` run, when it did not raise. -/
def plannedPatches (d : List Nat) (target_width target_height : Int) :
    Option (List Patch) :=
  (create_patches d target_width target_height).toOption.map Prod.fst

/-- The six potential patches, one per descriptor. -/
def fullPatches (tw th : Int) (nw nh : List Nat) : List Patch :=
  (descriptorList tw th nw nh).map patchOf

/-! ## Concrete evaluation data -/

/-- A 16-byte all-zero buffer: every descriptor is out of bounds on it, so
`create_patches` accepts nothing. -/
def demoData : List Nat := List.replicate 16 0

/-- A 20-byte all-zero buffer, also shorter than every descriptor offset. -/
def demoData20 : List Nat := List.replicate 20 0

/-- The four mismatch warnings `create_patches` emits on a buffer where all
four code sites mismatch. -/
def demoWarnings : List SkipWarning :=
  [SkipWarning.mk 0x054DF7 "Width getter (mov eax, 3840)",
   SkipWarning.mk 0x4B4305 "Resolution param width (mov edx, 3840)",
   SkipWarning.mk 0x054D37 "Height getter (mov eax, 2160)",
   SkipWarning.mk 0x4B430B "Resolution param height (mov r8d, 2160)"]

/-! ## Basic lemmas about bytes and slices -/

theorem u32le_length (n : Nat) : (u32le n).length = 4 := rfl

theorem u32le_inj {a b : Nat} (ha : a < 4294967296) (hb : b < 4294967296)
    (h : u32le a = u32le b) : a = b := by
  simp only [u32le, List.cons.injEq, and_true] at h
  omega

theorem packU32_ok_inv {v : Int} {l : List Nat} (h : packU32 v = Except.ok l) :
    0 ≤ v ∧ v < 4294967296 ∧ l = u32le v.toNat := by
  unfold packU32 at h
  split at h
  · next hc => exact ⟨hc.1, hc.2, (Except.ok.injEq _ _ ▸ h).symm⟩
  · cases h

theorem slice_length (d : List Nat) (a b : Nat) :
    (slice d a b).length = min b d.length - a := by
  simp [slice]

theorem slice_getElem? (d : List Nat) (a b k : Nat) :
    (slice d a b)[k]? = if a + k < b then d[a + k]? else none := by
  rw [slice, List.getElem?_drop, List.getElem?_take]

theorem bounds_of_slice_eq {d : List Nat} {o : Nat} {v : List Nat}
    (hv : v.length = 4) (h : slice d o (o + 4) = v) : o + 4 ≤ d.length := by
  have hl := congrArg List.length h
  rw [slice_length, hv] at hl
  omega

theorem slice_ne_of_oob {d : List Nat} {o : Nat} {v : List Nat}
    (hv : v.length = 4) (h : d.length < o + 4) : slice d o (o + 4) ≠ v := by
  intro he
  have := bounds_of_slice_eq hv he
  omega

theorem slice_congr {d d' : List Nat} {o : Nat}
    (hag : ∀ j, o ≤ j → j < o + 4 → d'[j]? = d[j]?) :
    slice d' o (o + 4) = slice d o (o + 4) := by
  apply List.ext_getElem?
  intro k
  rw [slice_getElem?, slice_getElem?]
  by_cases hk : o + k < o + 4
  · rw [if_pos hk, if_pos hk, hag (o + k) (by omega) hk]
  · rw [if_neg hk, if_neg hk]

/-! ## Lemmas about `setSlice` for in-bounds 4-byte writes -/

theorem setSlice_length {d r : List Nat} {s : Nat} (hs : s + 4 ≤ d.length)
    (hr : r.length = 4) : (setSlice d s (s + 4) r).length = d.length := by
  simp [setSlice, hr]
  omega

theorem setSlice_getElem?_left {d r : List Nat} {s i : Nat} (hs : s + 4 ≤ d.length)
    (hr : r.length = 4) (hi : i < s) : (setSlice d s (s + 4) r)[i]? = d[i]? := by
  have h1 : i < (d.take s ++ r).length := by simp [hr]; omega
  have h2 : i < (d.take s).length := by simp; omega
  rw [setSlice, List.getElem?_append_left h1, List.getElem?_append_left h2,
    List.getElem?_take_of_lt hi]

theorem setSlice_getElem?_mid {d r : List Nat} {s i : Nat} (hs : s + 4 ≤ d.length)
    (hr : r.length = 4) (hi1 : s ≤ i) (hi2 : i < s + 4) :
    (setSlice d s (s + 4) r)[i]? = r[i - s]? := by
  have h1 : i < (d.take s ++ r).length := by simp [hr]; omega
  have h2 : (d.take s).length ≤ i := by simp; omega
  have h3 : (d.take s).length = s := by simp; omega
  rw [setSlice, List.getElem?_append_left h1, List.getElem?_append_right h2, h3]

theorem setSlice_getElem?_right {d r : List Nat} {s i : Nat} (hs : s + 4 ≤ d.length)
    (hr : r.length = 4) (hi : s + 4 ≤ i) : (setSlice d s (s + 4) r)[i]? = d[i]? := by
  have h1 : (d.take s ++ r).length ≤ i := by simp [hr]; omega
  have h3 : (d.take s ++ r).length = s + 4 := by simp [hr]; omega
  rw [setSlice, List.getElem?_append_right h1, h3, List.getElem?_drop]
  congr 1
  omega

/-! ## Lemmas about `applyStep` and `apply_patches` -/

theorem applyStep_dry_fst (d : List Nat) (p : Patch) : (applyStep true d p).1 = d := by
  unfold applyStep
  split_ifs <;> simp_all

theorem applyStep_commit {d : List Nat} {p : Patch} (h4o : p.original.length = 4)
    (h4r : p.replacement.length = 4) :
    applyStep false d p = (setSlice d p.offset (p.offset + 4) p.replacement, none) := by
  unfold applyStep
  rw [h4o, h4r]
  simp

theorem apply_patches_cons_none {d d' : List Nat} {p : Patch} {ps : List Patch}
    {dr : Bool} (h : applyStep dr d p = (d', none)) :
    apply_patches d (p :: ps) dr = apply_patches d' ps dr := by
  have hu : apply_patches d (p :: ps) dr =
      match applyStep dr d p with
      | (d'', none) => apply_patches d'' ps dr
      | (d'', some e) => (d'', some e) := rfl
  rw [hu, h]

theorem apply_patches_cons_some {d d' : List Nat} {p : Patch} {ps : List Patch}
    {dr : Bool} {e : String} (h : applyStep dr d p = (d', some e)) :
    apply_patches d (p :: ps) dr = (d', some e) := by
  have hu : apply_patches d (p :: ps) dr =
      match applyStep dr d p with
      | (d'', none) => apply_patches d'' ps dr
      | (d'', some e') => (d'', some e') := rfl
  rw [hu, h]

theorem apply_patches_dry_fst (ps : List Patch) : ∀ d : List Nat,
    (apply_patches d ps true).1 = d := by
  induction ps with
  | nil => intro d; rfl
  | cons p ps ih =>
    intro d
    rcases hs : applyStep true d p with ⟨d1, o⟩
    have h1 : d1 = d := by
      have h := applyStep_dry_fst d p
      rw [hs] at h
      exact h
    rw [h1] at hs
    cases o with
    | none => rw [apply_patches_cons_none hs, ih d]
    | some e => rw [apply_patches_cons_some hs]

/-! ## Lemmas about `coveringPatch` -/

theorem coveringPatch_cons_pos {p : Patch} {ps : List Patch} {i : Nat}
    (h : p.offset ≤ i ∧ i < p.offset + 4) :
    coveringPatch (p :: ps) i = some p := by
  unfold coveringPatch
  rw [List.find?_cons_of_pos]
  simp [h.1, h.2]

theorem coveringPatch_cons_neg {p : Patch} {ps : List Patch} {i : Nat}
    (h : ¬(p.offset ≤ i ∧ i < p.offset + 4)) :
    coveringPatch (p :: ps) i = coveringPatch ps i := by
  unfold coveringPatch
  rw [List.find?_cons_of_neg]
  simp only [Bool.and_eq_true, decide_eq_true_eq, not_and]
  intro h1 h2
  exact h ⟨h1, h2⟩

theorem coveringPatch_eq_none {ps : List Patch} {i : Nat}
    (h : ∀ p ∈ ps, ¬(p.offset ≤ i ∧ i < p.offset + 4)) :
    coveringPatch ps i = none := by
  unfold coveringPatch
  rw [List.find?_eq_none]
  intro p hp
  simp only [Bool.and_eq_true, decide_eq_true_eq, not_and]
  intro h1 h2
  exact h p hp ⟨h1, h2⟩

theorem covering_unique {ps : List Patch} (hdisj : ps.Pairwise RangesDisjoint)
    {p q : Patch} {i : Nat} (hp : p ∈ ps) (hq : q ∈ ps)
    (hpc : p.offset ≤ i ∧ i < p.offset + 4)
    (hqc : q.offset ≤ i ∧ i < q.offset + 4) : p = q := by
  induction ps with
  | nil => cases hp
  | cons a ps ih =>
    rw [List.pairwise_cons] at hdisj
    rcases List.mem_cons.mp hp with rfl | hp' <;>
      rcases List.mem_cons.mp hq with rfl | hq'
    · rfl
    · have hd := hdisj.1 q hq'
      unfold RangesDisjoint at hd
      omega
    · have hd := hdisj.1 p hp'
      unfold RangesDisjoint at hd
      omega
    · exact ih hdisj.2 hp' hq'

theorem coveringPatch_of_mem {ps : List Patch} (hdisj : ps.Pairwise RangesDisjoint)
    {p : Patch} {i : Nat} (hp : p ∈ ps)
    (hpc : p.offset ≤ i ∧ i < p.offset + 4) : coveringPatch ps i = some p := by
  cases hc : coveringPatch ps i with
  | none =>
    exfalso
    unfold coveringPatch at hc
    rw [List.find?_eq_none] at hc
    have := hc p hp
    simp only [Bool.and_eq_true, decide_eq_true_eq] at this
    exact this ⟨hpc.1, hpc.2⟩
  | some q =>
    have hqm : q ∈ ps := List.mem_of_find?_eq_some hc
    have hqp : q.offset ≤ i ∧ i < q.offset + 4 := by
      have := List.find?_some hc
      simp only [Bool.and_eq_true, decide_eq_true_eq] at this
      exact this
    rw [covering_unique hdisj hp hqm hpc hqp]

/-! ## The frame property of committing a well-formed, disjoint patch list -/

theorem apply_patches_commit_char (ps : List Patch) : ∀ d : List Nat,
    (∀ p ∈ ps, p.offset + 4 ≤ d.length) →
    (∀ p ∈ ps, p.original.length = 4 ∧ p.replacement.length = 4) →
    ps.Pairwise RangesDisjoint →
    (apply_patches d ps false).2 = none ∧
    (apply_patches d ps false).1.length = d.length ∧
    ∀ i : Nat, (apply_patches d ps false).1[i]? = patchedByte d ps i := by
  induction ps with
  | nil =>
    intro d _ _ _
    refine ⟨rfl, rfl, fun i => ?_⟩
    simp [apply_patches, patchedByte, coveringPatch]
  | cons p ps ih =>
    intro d hb h4 hdisj
    obtain ⟨h4o, h4r⟩ := h4 p (List.mem_cons_self p ps)
    have hbp : p.offset + 4 ≤ d.length := hb p (List.mem_cons_self p ps)
    have hstep := applyStep_commit (d := d) h4o h4r
    have hlen' : (setSlice d p.offset (p.offset + 4) p.replacement).length = d.length :=
      setSlice_length hbp h4r
    have hrec : apply_patches d (p :: ps) false =
        apply_patches (setSlice d p.offset (p.offset + 4) p.replacement) ps false :=
      apply_patches_cons_none hstep
    rw [List.pairwise_cons] at hdisj
    obtain ⟨hdp, hdtail⟩ := hdisj
    obtain ⟨ih2, ihlen, ihpt⟩ := ih (setSlice d p.offset (p.offset + 4) p.replacement)
      (fun q hq => hlen' ▸ hb q (List.mem_cons_of_mem p hq))
      (fun q hq => h4 q (List.mem_cons_of_mem p hq)) hdtail
    refine ⟨hrec ▸ ih2, by rw [hrec, ihlen, hlen'], fun i => ?_⟩
    rw [hrec, ihpt i]
    by_cases hcov : p.offset ≤ i ∧ i < p.offset + 4
    · have hnone : coveringPatch ps i = none := by
        apply coveringPatch_eq_none
        intro q hq hqc
        have hd := hdp q hq
        unfold RangesDisjoint at hd
        omega
      rw [patchedByte, patchedByte, hnone, coveringPatch_cons_pos hcov]
      exact setSlice_getElem?_mid hbp h4r hcov.1 hcov.2
    · rw [patchedByte, patchedByte, coveringPatch_cons_neg hcov]
      cases hc : coveringPatch ps i with
      | some q => rfl
      | none =>
        rcases Nat.lt_or_ge i p.offset with h | h
        · exact setSlice_getElem?_left hbp h4r h
        · exact setSlice_getElem?_right hbp h4r (by omega)

/-! ## Lemmas about `planCode`, `plan` and `create_patches` -/

theorem planCode_fst_mem {data : List Nat}
    {sites : List (Nat × List Nat × List Nat × String)} {p : Patch} :
    p ∈ (planCode data sites).1 ↔
      ∃ e ∈ sites, p = patchOf e ∧ slice data e.1 (e.1 + 4) = e.2.1 := by
  induction sites with
  | nil => simp [planCode]
  | cons s rest ih =>
    obtain ⟨o, e, r, str⟩ := s
    by_cases hc : slice data o (o + 4) = e
    · simp only [planCode, if_pos hc, List.mem_cons, ih]
      constructor
      · rintro (rfl | ⟨e', he', rfl, hs⟩)
        · exact ⟨(o, e, r, str), Or.inl rfl, rfl, hc⟩
        · exact ⟨e', Or.inr he', rfl, hs⟩
      · rintro ⟨e', rfl | he'', rfl, hs⟩
        · exact Or.inl rfl
        · exact Or.inr ⟨e', he'', rfl, hs⟩
    · simp only [planCode, if_neg hc, List.mem_cons, ih]
      constructor
      · rintro ⟨e', he', rfl, hs⟩
        exact ⟨e', Or.inr he', rfl, hs⟩
      · rintro ⟨e', rfl | he'', rfl, hs⟩
        · exact absurd hs hc
        · exact ⟨e', he'', rfl, hs⟩

theorem planCode_snd_mem {data : List Nat}
    {sites : List (Nat × List Nat × List Nat × String)} {w : SkipWarning} :
    w ∈ (planCode data sites).2 ↔
      ∃ e ∈ sites, w = SkipWarning.mk e.1 e.2.2.2 ∧ slice data e.1 (e.1 + 4) ≠ e.2.1 := by
  induction sites with
  | nil => simp [planCode]
  | cons s rest ih =>
    obtain ⟨o, e, r, str⟩ := s
    by_cases hc : slice data o (o + 4) = e
    · simp only [planCode, if_pos hc, List.mem_cons, ih]
      constructor
      · rintro ⟨e', he', rfl, hs⟩
        exact ⟨e', Or.inr he', rfl, hs⟩
      · rintro ⟨e', rfl | he'', rfl, hs⟩
        · exact absurd hc hs
        · exact ⟨e', he'', rfl, hs⟩
    · simp only [planCode, if_neg hc, List.mem_cons, ih]
      constructor
      · rintro (rfl | ⟨e', he', rfl, hs⟩)
        · exact ⟨(o, e, r, str), Or.inl rfl, rfl, hc⟩
        · exact ⟨e', Or.inr he', rfl, hs⟩
      · rintro ⟨e', rfl | he'', rfl, hs⟩
        · exact Or.inl rfl
        · exact Or.inr ⟨e', he'', rfl, hs⟩

theorem planCode_fst_sublist (data : List Nat)
    (sites : List (Nat × List Nat × List Nat × String)) :
    List.Sublist (planCode data sites).1 (sites.map patchOf) := by
  induction sites with
  | nil => simp [planCode]
  | cons s rest ih =>
    obtain ⟨o, e, r, str⟩ := s
    by_cases hc : slice data o (o + 4) = e
    · simp only [planCode, if_pos hc, List.map_cons]
      exact ih.cons₂ (Patch.mk o e r str)
    · simp only [planCode, if_neg hc, List.map_cons]
      exact ih.cons _

theorem plan_fst_eq (data : List Nat) (tw th : Int) (nw nh : List Nat) :
    (plan data tw th nw nh).1 =
      ((if slice data 0xBDA4F0 (0xBDA4F0 + 4) = u32le 3840 then
          [Patch.mk 0xBDA4F0 (u32le 3840) nw
            ("Resolution table: 3840 -> " ++ toString tw ++ " (width)")]
        else []) ++
       (if slice data (0xBDA4F0 + 4) (0xBDA4F0 + 8) = u32le 2160 then
          [Patch.mk (0xBDA4F0 + 4) (u32le 2160) nh
            ("Resolution table: 2160 -> " ++ toString th ++ " (height)")]
        else [])) ++ (planCode data (codeSites nw nh)).1 := rfl

theorem plan_snd_eq (data : List Nat) (tw th : Int) (nw nh : List Nat) :
    (plan data tw th nw nh).2 = (planCode data (codeSites nw nh)).2 := rfl

theorem mem_ite_singleton {α : Type} {c : Prop} [Decidable c] {x p : α} :
    p ∈ (if c then [x] else ([] : List α)) ↔ c ∧ p = x := by
  split_ifs with h <;> simp [h]

theorem plan_fst_mem {data : List Nat} {tw th : Int} {nw nh : List Nat} {p : Patch} :
    p ∈ (plan data tw th nw nh).1 ↔
      ∃ e ∈ descriptorList tw th nw nh,
        p = patchOf e ∧ slice data e.1 (e.1 + 4) = e.2.1 := by
  have h8 : (0xBDA4F0 : Nat) + 4 + 4 = 0xBDA4F0 + 8 := rfl
  rw [plan_fst_eq]
  simp only [List.mem_append, mem_ite_singleton, planCode_fst_mem]
  constructor
  · rintro ((⟨hc, rfl⟩ | ⟨hc, rfl⟩) | ⟨e', he', rfl, hs⟩)
    · exact ⟨(0xBDA4F0, u32le 3840, nw, _), List.mem_cons_self _ _, rfl, hc⟩
    · refine ⟨(0xBDA4F0 + 4, u32le 2160, nh, _),
        List.mem_cons_of_mem _ (List.mem_cons_self _ _), rfl, ?_⟩
      rw [h8]
      exact hc
    · exact ⟨e', List.mem_cons_of_mem _ (List.mem_cons_of_mem _ he'), rfl, hs⟩
  · rintro ⟨e', he', rfl, hs⟩
    rcases List.mem_cons.mp he' with rfl | he2
    · exact Or.inl (Or.inl ⟨hs, rfl⟩)
    rcases List.mem_cons.mp he2 with rfl | he3
    · refine Or.inl (Or.inr ⟨?_, rfl⟩)
      rw [← h8]
      exact hs
    · exact Or.inr ⟨e', he3, rfl, hs⟩

theorem plan_fst_sublist (data : List Nat) (tw th : Int) (nw nh : List Nat) :
    List.Sublist (plan data tw th nw nh).1 (fullPatches tw th nw nh) := by
  rw [plan_fst_eq]
  have h1 : List.Sublist (if slice data 0xBDA4F0 (0xBDA4F0 + 4) = u32le 3840 then
      [Patch.mk 0xBDA4F0 (u32le 3840) nw
        ("Resolution table: 3840 -> " ++ toString tw ++ " (width)")]
    else [])
      [Patch.mk 0xBDA4F0 (u32le 3840) nw
        ("Resolution table: 3840 -> " ++ toString tw ++ " (width)")] := by
    split_ifs <;> simp
  have h2 : List.Sublist (if slice data (0xBDA4F0 + 4) (0xBDA4F0 + 8) = u32le 2160 then
      [Patch.mk (0xBDA4F0 + 4) (u32le 2160) nh
        ("Resolution table: 2160 -> " ++ toString th ++ " (height)")]
    else [])
      [Patch.mk (0xBDA4F0 + 4) (u32le 2160) nh
        ("Resolution table: 2160 -> " ++ toString th ++ " (height)")] := by
    split_ifs <;> simp
  have h3 := planCode_fst_sublist data (codeSites nw nh)
  exact (h1.append h2).append h3

theorem fullPatches_pairwise (tw th : Int) (nw nh : List Nat) :
    (fullPatches tw th nw nh).Pairwise RangesDisjoint := by
  have h : List.Pairwise (fun a b : Nat => a + 4 ≤ b ∨ b + 4 ≤ a)
      [0xBDA4F0, 0xBDA4F0 + 4, 0x054DF7, 0x4B4305, 0x054D37, 0x4B430B] := by
    decide
  have hmap : (fullPatches tw th nw nh).map Patch.offset =
      [0xBDA4F0, 0xBDA4F0 + 4, 0x054DF7, 0x4B4305, 0x054D37, 0x4B430B] := rfl
  rw [← hmap] at h
  have h2 : (fullPatches tw th nw nh).Pairwise
      (fun a b : Patch => a.offset + 4 ≤ b.offset ∨ b.offset + 4 ≤ a.offset) :=
    List.pairwise_map.mp h
  exact h2

theorem plan_fst_pairwise (data : List Nat) (tw th : Int) (nw nh : List Nat) :
    (plan data tw th nw nh).1.Pairwise RangesDisjoint :=
  List.Pairwise.sublist (plan_fst_sublist data tw th nw nh)
    (fullPatches_pairwise tw th nw nh)

theorem create_patches_eq {data : List Nat} {tw th : Int} {nw nh : List Nat}
    (hw : packU32 tw = Except.ok nw) (hh : packU32 th = Except.ok nh) :
    create_patches data tw th = Except.ok (plan data tw th nw nh) := by
  unfold create_patches
  rw [hw, hh]

theorem create_patches_ok_inv {data : List Nat} {tw th : Int}
    {ps : List Patch} {ws : List SkipWarning}
    (h : create_patches data tw th = Except.ok (ps, ws)) :
    ∃ nw nh, packU32 tw = Except.ok nw ∧ packU32 th = Except.ok nh ∧
      ps = (plan data tw th nw nh).1 ∧ ws = (plan data tw th nw nh).2 := by
  unfold create_patches at h
  cases h1 : packU32 tw with
  | error e => rw [h1] at h; cases h
  | ok nw =>
    cases h2 : packU32 th with
    | error e => rw [h1, h2] at h; cases h
    | ok nh =>
      rw [h1, h2] at h
      have h' : plan data tw th nw nh = (ps, ws) := by
        injection h
      exact ⟨nw, nh, rfl, rfl, by rw [h'], by rw [h']⟩

/-! ## Facts about the six fixed descriptors -/

theorem descriptor_cases {tw th : Int} {nw nh : List Nat}
    {e : Nat × List Nat × List Nat × String}
    (he : e ∈ descriptorList tw th nw nh) :
    (e.2.1 = u32le 3840 ∧ e.2.2.1 = nw) ∨ (e.2.1 = u32le 2160 ∧ e.2.2.1 = nh) := by
  simp only [descriptorList, codeSites, List.mem_cons, List.not_mem_nil,
    or_false] at he
  rcases he with rfl | rfl | rfl | rfl | rfl | rfl
  · exact Or.inl ⟨rfl, rfl⟩
  · exact Or.inr ⟨rfl, rfl⟩
  · exact Or.inl ⟨rfl, rfl⟩
  · exact Or.inl ⟨rfl, rfl⟩
  · exact Or.inr ⟨rfl, rfl⟩
  · exact Or.inr ⟨rfl, rfl⟩

theorem descriptor_offset_mem {tw th : Int} {nw nh : List Nat}
    {e : Nat × List Nat × List Nat × String}
    (he : e ∈ descriptorList tw th nw nh) :
    e.1 ∈ [0xBDA4F0, 0xBDA4F0 + 4, 0x054DF7, 0x4B4305, 0x054D37, 0x4B430B] := by
  simp only [descriptorList, codeSites, List.mem_cons, List.not_mem_nil,
    or_false] at he
  rcases he with rfl | rfl | rfl | rfl | rfl | rfl <;> simp

theorem offsets_gap : ∀ a ∈ [0xBDA4F0, 0xBDA4F0 + 4, 0x054DF7, 0x4B4305,
      0x054D37, 0x4B430B],
    ∀ b ∈ [(0xBDA4F0 : Nat), 0xBDA4F0 + 4, 0x054DF7, 0x4B4305, 0x054D37, 0x4B430B],
    a ≠ b → a + 4 ≤ b ∨ b + 4 ≤ a := by decide

theorem descriptorList_offset_inj {tw th : Int} {nw nh : List Nat}
    {e e' : Nat × List Nat × List Nat × String}
    (he : e ∈ descriptorList tw th nw nh) (he' : e' ∈ descriptorList tw th nw nh)
    (h : e.1 = e'.1) : e = e' := by
  simp only [descriptorList, codeSites, List.mem_cons, List.not_mem_nil,
    or_false] at he he'
  rcases he with rfl | rfl | rfl | rfl | rfl | rfl <;>
    rcases he' with rfl | rfl | rfl | rfl | rfl | rfl <;> simp_all

theorem codeSites_offsets {nw nh : List Nat}
    {e : Nat × List Nat × List Nat × String} (he : e ∈ codeSites nw nh) :
    e.1 = 0x054DF7 ∨ e.1 = 0x4B4305 ∨ e.1 = 0x054D37 ∨ e.1 = 0x4B430B := by
  simp only [codeSites, List.mem_cons, List.not_mem_nil, or_false] at he
  rcases he with rfl | rfl | rfl | rfl
  · exact Or.inl rfl
  · exact Or.inr (Or.inl rfl)
  · exact Or.inr (Or.inr (Or.inl rfl))
  · exact Or.inr (Or.inr (Or.inr rfl))

theorem codeSites_offset_inj {nw nh : List Nat}
    {e e' : Nat × List Nat × List Nat × String}
    (he : e ∈ codeSites nw nh) (he' : e' ∈ codeSites nw nh)
    (h : e.1 = e'.1) : e = e' := by
  simp only [codeSites, List.mem_cons, List.not_mem_nil, or_false] at he he'
  rcases he with rfl | rfl | rfl | rfl <;>
    rcases he' with rfl | rfl | rfl | rfl <;> simp_all

/-! ## Well-formedness of every plan `create_patches` produces -/

theorem create_patches_wf {data : List Nat} {tw th : Int} {ps : List Patch}
    {ws : List SkipWarning}
    (hcp : create_patches data tw th = Except.ok (ps, ws)) :
    (∀ p ∈ ps, p.offset + 4 ≤ data.length ∧ p.original.length = 4 ∧
      p.replacement.length = 4 ∧ slice data p.offset (p.offset + 4) = p.original) ∧
    ps.Pairwise RangesDisjoint := by
  obtain ⟨nw, nh, hw, hh, hps, hws⟩ := create_patches_ok_inv hcp
  obtain ⟨_, _, hnw⟩ := packU32_ok_inv hw
  obtain ⟨_, _, hnh⟩ := packU32_ok_inv hh
  subst hps
  refine ⟨fun p hp => ?_, plan_fst_pairwise data tw th nw nh⟩
  obtain ⟨e, he, rfl, hs⟩ := plan_fst_mem.mp hp
  have hc := descriptor_cases he
  have h4 : e.2.1.length = 4 := by
    rcases hc with ⟨h1, _⟩ | ⟨h1, _⟩ <;> rw [h1] <;> rfl
  have hrl : (e.2.2.1).length = 4 := by
    rcases hc with ⟨_, h2⟩ | ⟨_, h2⟩
    · rw [h2, hnw]; rfl
    · rw [h2, hnh]; rfl
  exact ⟨bounds_of_slice_eq h4 hs, h4, hrl, hs⟩

/-! ## Slices of the buffer after a commit -/

theorem slice_after_commit {data : List Nat} {ps : List Patch}
    (hb : ∀ p ∈ ps, p.offset + 4 ≤ data.length)
    (h4 : ∀ p ∈ ps, p.original.length = 4 ∧ p.replacement.length = 4)
    (hdisj : ps.Pairwise RangesDisjoint) {p : Patch} (hp : p ∈ ps) :
    slice (apply_patches data ps false).1 p.offset (p.offset + 4) = p.replacement := by
  obtain ⟨-, hlen, hpt⟩ := apply_patches_commit_char ps data hb h4 hdisj
  apply List.ext_getElem?
  intro k
  rw [slice_getElem?]
  by_cases hk : p.offset + k < p.offset + 4
  · rw [if_pos hk, hpt (p.offset + k)]
    simp only [patchedByte, coveringPatch_of_mem hdisj hp ⟨by omega, hk⟩]
    congr 1
    omega
  · rw [if_neg hk]
    symm
    apply List.getElem?_eq_none
    have := (h4 p hp).2
    omega

theorem slice_after_commit_untouched {data : List Nat} {ps : List Patch}
    (hb : ∀ p ∈ ps, p.offset + 4 ≤ data.length)
    (h4 : ∀ p ∈ ps, p.original.length = 4 ∧ p.replacement.length = 4)
    (hdisj : ps.Pairwise RangesDisjoint) {o : Nat}
    (hno : ∀ p ∈ ps, p.offset + 4 ≤ o ∨ o + 4 ≤ p.offset) :
    slice (apply_patches data ps false).1 o (o + 4) = slice data o (o + 4) := by
  obtain ⟨-, hlen, hpt⟩ := apply_patches_commit_char ps data hb h4 hdisj
  apply slice_congr
  intro j hj1 hj2
  rw [hpt j]
  have hnone : coveringPatch ps j = none := by
    apply coveringPatch_eq_none
    intro p hp hpc
    have := hno p hp
    omega
  simp only [patchedByte, hnone]

/-! ## Claim theorems -/

/-- Claim C1: for every descriptor in the fixed six-entry list (the two
resolution-table entries at `0xBDA4F0`/`0xBDA4F4` and the four code sites),
`create_patches` puts the descriptor's patch into the returned list exactly
when the buffer bytes at `[offset, offset + 4)` equal the descriptor's
expected original bytes; an accepted descriptor enters whole (as `patchOf e`),
never partially. -/
theorem create_patches_accepts_iff (data : List Nat) (tw th : Int)
    (nw nh : List Nat) (ps : List Patch) (ws : List SkipWarning)
    (e : Nat × List Nat × List Nat × String)
    (hw : packU32 tw = Except.ok nw) (hh : packU32 th = Except.ok nh)
    (hcp : create_patches data tw th = Except.ok (ps, ws))
    (he : e ∈ descriptorList tw th nw nh) :
    patchOf e ∈ ps ↔ slice data e.1 (e.1 + 4) = e.2.1 := by
  obtain ⟨nw', nh', hw', hh', hps, hws⟩ := create_patches_ok_inv hcp
  rw [hw] at hw'
  rw [hh] at hh'
  injection hw' with hw2
  injection hh' with hh2
  subst hw2
  subst hh2
  subst hps
  constructor
  · intro hmem
    obtain ⟨e', he', heq, hs⟩ := plan_fst_mem.mp hmem
    have hoff : e.1 = e'.1 := congrArg Patch.offset heq
    have hee : e = e' := descriptorList_offset_inj he he' hoff
    rw [hee]
    exact hs
  · intro hs
    exact plan_fst_mem.mpr ⟨e, he, rfl, hs⟩

/-- Witness for C1: at the concrete all-zero 16-byte buffer with target
5120x2880 the plan is empty, and the width code-site descriptor indeed
mismatches. -/
theorem create_patches_accepts_iff_witness :
    patchOf (0x054DF7, u32le 3840, u32le 5120, "Width getter (mov eax, 3840)") ∈
        ([] : List Patch) ↔
      slice demoData 0x054DF7 (0x054DF7 + 4) = u32le 3840 :=
  create_patches_accepts_iff demoData 5120 2880 (u32le 5120) (u32le 2880) []
    demoWarnings (0x054DF7, u32le 3840, u32le 5120, "Width getter (mov eax, 3840)")
    rfl rfl rfl (by simp [descriptorList, codeSites])

/-- Claim C2: committing a plan produced by `create_patches` on the same
buffer preserves the buffer length and rewrites exactly the accepted 4-byte
ranges: at any index `i`, the resulting byte is the covering accepted patch's
replacement byte, and the unchanged old byte when no accepted patch covers
`i` (`patchedByte` expresses both cases). -/
theorem apply_commit_frame (data : List Nat) (tw th : Int) (ps : List Patch)
    (ws : List SkipWarning) (i : Nat)
    (hcp : create_patches data tw th = Except.ok (ps, ws)) :
    (apply_patches data ps false).1.length = data.length ∧
    (apply_patches data ps false).1[i]? = patchedByte data ps i := by
  obtain ⟨hwf, hdisj⟩ := create_patches_wf hcp
  obtain ⟨-, hlen, hpt⟩ := apply_patches_commit_char ps data
    (fun p hp => (hwf p hp).1)
    (fun p hp => ⟨(hwf p hp).2.1, (hwf p hp).2.2.1⟩) hdisj
  exact ⟨hlen, hpt i⟩

/-- Witness for C2 at the concrete empty plan on the 16-byte buffer. -/
theorem apply_commit_frame_witness :
    (apply_patches demoData [] false).1.length = demoData.length ∧
    (apply_patches demoData [] false).1[3]? = patchedByte demoData [] 3 :=
  apply_commit_frame demoData 5120 2880 [] demoWarnings 3 rfl

/-- Claim C3: a dry run never changes the buffer: for every buffer and every
patch list whatsoever, the buffer `apply_patches` returns in dry-run mode is
the input buffer (even when a malformed patch raises mid-loop no write has
happened). -/
theorem apply_dry_run_id (d : List Nat) (ps : List Patch) :
    (apply_patches d ps true).1 = d :=
  apply_patches_dry_fst ps d

/-- Claim C4: under the precondition that the plan came from `create_patches`
on the same buffer, applying it with `dry_run = False` is total: every
accepted patch is in bounds with 4-byte original and replacement, no
exception is raised, and the buffer keeps its length (no slice write can
resize it). -/
theorem apply_total_after_plan (data : List Nat) (tw th : Int) (ps : List Patch)
    (ws : List SkipWarning)
    (hcp : create_patches data tw th = Except.ok (ps, ws)) :
    wellFormedFor data ps = true ∧
    (apply_patches data ps false).2 = none ∧
    (apply_patches data ps false).1.length = data.length := by
  obtain ⟨hwf, hdisj⟩ := create_patches_wf hcp
  obtain ⟨hok, hlen, -⟩ := apply_patches_commit_char ps data
    (fun p hp => (hwf p hp).1)
    (fun p hp => ⟨(hwf p hp).2.1, (hwf p hp).2.2.1⟩) hdisj
  refine ⟨?_, hok, hlen⟩
  rw [wellFormedFor, List.all_eq_true]
  intro p hp
  have h := hwf p hp
  simp [h.1, h.2.1, h.2.2.1]

/-- Witness for C4 at the concrete empty plan on the 16-byte buffer. -/
theorem apply_total_after_plan_witness :
    wellFormedFor demoData [] = true ∧
    (apply_patches demoData [] false).2 = none ∧
    (apply_patches demoData [] false).1.length = demoData.length :=
  apply_total_after_plan demoData 5120 2880 [] demoWarnings rfl

/-- Claim C9: when `create_patches` accepts zero descriptors, `main` returns
the distinguished failure exit code 1, the buffer is left as loaded and the
file is not rewritten (apply is never reached). -/
theorem empty_plan_distinct_failure (data : List Nat) (w h : Int)
    (ws : List SkipWarning) (dr : Bool)
    (hcp : create_patches data w h = Except.ok ([], ws)) :
    runMain data w h dr = Except.ok (MainResult.mk 1 data false) := by
  unfold runMain
  rw [hcp]
  simp

/-- Witness for C9 at the concrete 16-byte buffer, where the plan is empty. -/
theorem empty_plan_distinct_failure_witness :
    runMain demoData 5120 2880 false = Except.ok (MainResult.mk 1 demoData false) :=
  empty_plan_distinct_failure demoData 5120 2880 demoWarnings false rfl

/-- Claim C10: a target width or height outside `[0, 2^32)` makes
`create_patches` raise the packing `struct.error`; the result is the same for
every buffer (the error precedes any buffer access), so no plan is produced
and the buffer is never consulted or mutated. -/
theorem bad_target_packs_error (data : List Nat) (tw th : Int)
    (hbad : tw < 0 ∨ 4294967296 ≤ tw ∨ th < 0 ∨ 4294967296 ≤ th) :
    create_patches data tw th =
      Except.error "struct.error: argument out of range for I format code" := by
  unfold create_patches packU32
  by_cases h1 : 0 ≤ tw ∧ tw < 4294967296
  · have h2 : ¬(0 ≤ th ∧ th < 4294967296) := by
      rcases hbad with h | h | h | h <;> omega
    rw [if_pos h1, if_neg h2]
  · rw [if_neg h1]

/-- Witness for C10 at the concrete negative width `-1`. -/
theorem bad_target_packs_error_witness :
    create_patches demoData (-1) 2880 =
      Except.error "struct.error: argument out of range for I format code" :=
  bad_target_packs_error demoData (-1) 2880 (Or.inl (by decide))

/-- Claim C5: after committing a plan, re-planning on the mutated buffer
accepts zero descriptors whenever the targets' 4-byte encodings differ from
those of 3840 and 2160: every accepted range now holds the new value and
every skipped range still mismatches, so patches apply at most once per
matching state. -/
theorem replan_after_commit_empty (data : List Nat) (tw th : Int)
    (nw nh : List Nat) (ps : List Patch) (ws : List SkipWarning)
    (hw : packU32 tw = Except.ok nw) (hh : packU32 th = Except.ok nh)
    (htw : tw ≠ 3840) (hth : th ≠ 2160)
    (hcp : create_patches data tw th = Except.ok (ps, ws)) :
    plannedPatches (apply_patches data ps false).1 tw th = some [] := by
  obtain ⟨hwf, hdisj⟩ := create_patches_wf hcp
  have hb : ∀ p ∈ ps, p.offset + 4 ≤ data.length := fun p hp => (hwf p hp).1
  have h4 : ∀ p ∈ ps, p.original.length = 4 ∧ p.replacement.length = 4 :=
    fun p hp => ⟨(hwf p hp).2.1, (hwf p hp).2.2.1⟩
  obtain ⟨htw0, htw1, hnw⟩ := packU32_ok_inv hw
  obtain ⟨hth0, hth1, hnh⟩ := packU32_ok_inv hh
  obtain ⟨nw', nh', hw', hh', hps, -⟩ := create_patches_ok_inv hcp
  rw [hw] at hw'
  rw [hh] at hh'
  injection hw' with hw2
  injection hh' with hh2
  subst hw2
  subst hh2
  have hempty : (plan (apply_patches data ps false).1 tw th nw nh).1 = [] := by
    rw [List.eq_nil_iff_forall_not_mem]
    intro p hp2
    obtain ⟨e, he, rfl, hs2⟩ := plan_fst_mem.mp hp2
    by_cases hacc : patchOf e ∈ ps
    · have hsl : slice (apply_patches data ps false).1 e.1 (e.1 + 4) = e.2.2.1 :=
        slice_after_commit hb h4 hdisj hacc
      rw [hsl] at hs2
      rcases descriptor_cases he with ⟨h1, h2⟩ | ⟨h1, h2⟩
      · rw [h1, h2, hnw] at hs2
        have h3 : tw.toNat = 3840 := u32le_inj (by omega) (by norm_num) hs2
        omega
      · rw [h1, h2, hnh] at hs2
        have h3 : th.toNat = 2160 := u32le_inj (by omega) (by norm_num) hs2
        omega
    · have hunt : slice (apply_patches data ps false).1 e.1 (e.1 + 4) =
          slice data e.1 (e.1 + 4) := by
        apply slice_after_commit_untouched hb h4 hdisj
        intro p hp
        have hp' : p ∈ (plan data tw th nw nh).1 := hps ▸ hp
        obtain ⟨e', he', hpe, -⟩ := plan_fst_mem.mp hp'
        have hne' : e'.1 ≠ e.1 := by
          intro hq
          apply hacc
          have hee : e' = e := descriptorList_offset_inj he' he hq
          rw [← hee, ← hpe]
          exact hp
        have hgap := offsets_gap e'.1 (descriptor_offset_mem he')
          e.1 (descriptor_offset_mem he) hne'
        rw [hpe]
        exact hgap
      rw [hunt] at hs2
      apply hacc
      rw [hps]
      exact plan_fst_mem.mpr ⟨e, he, rfl, hs2⟩
  unfold plannedPatches
  rw [create_patches_eq hw hh]
  simp [Except.toOption, hempty]

/-- Witness for C5 at the concrete empty plan on the 16-byte buffer with
target 5120x2880. -/
theorem replan_after_commit_empty_witness :
    plannedPatches (apply_patches demoData [] false).1 5120 2880 = some [] :=
  replan_after_commit_empty demoData 5120 2880 (u32le 5120) (u32le 2880) []
    demoWarnings rfl rfl (by decide) (by decide) rfl

/-- Claim C6 counterexample: the `Patch` dataclass performs no validation, so
a descriptor whose expected and replacement lengths differ is freely
constructible, and handing it to `apply_patches` raises the `struct.error`
only there — the mismatch is discovered mid-apply, not rejected at
construction time. -/
theorem patch_length_mismatch_constructible :
    (Patch.mk 0 [0, 0] [1, 2, 3, 4] "bad").original.length ≠
      (Patch.mk 0 [0, 0] [1, 2, 3, 4] "bad").replacement.length ∧
    (apply_patches [9, 9, 9, 9] [Patch.mk 0 [0, 0] [1, 2, 3, 4] "bad"] false).2 =
      some "struct.error: unpack requires a buffer of 4 bytes" :=
  ⟨by decide, rfl⟩

/-- Claim C6 (amended): the `Patch` constructor validates nothing, but every
descriptor `create_patches` itself constructs has expected and replacement of
equal (4-byte) length, so no length mismatch arises within a planned run; a
mismatched descriptor built by hand is rejected only inside `apply_patches`
(struct unpack error), not at construction time. -/
theorem create_patches_lengths_match (data : List Nat) (tw th : Int)
    (ps : List Patch) (ws : List SkipWarning)
    (hcp : create_patches data tw th = Except.ok (ps, ws)) :
    allLensMatch ps = true := by
  obtain ⟨hwf, -⟩ := create_patches_wf hcp
  rw [allLensMatch, List.all_eq_true]
  intro p hp
  have h := hwf p hp
  simp [h.2.1, h.2.2.1]

/-- Witness for the amended C6 at the concrete empty plan. -/
theorem create_patches_lengths_match_witness : allLensMatch [] = true :=
  create_patches_lengths_match demoData 5120 2880 [] demoWarnings rfl

/-- Claim C7 counterexample: on a 20-byte buffer the resolution-table
descriptor's range `[0xBDA4F0, 0xBDA4F4)` is far past the end; it is skipped
and no exception is raised, but no reason is recorded for it — the four
recorded warnings all carry code-site offsets, contradicting the claim's
"recording it with a reason" for every descriptor. -/
theorem oob_table_skip_unrecorded :
    demoData20.length < 0xBDA4F0 + 4 ∧
    create_patches demoData20 7680 4320 = Except.ok ([], demoWarnings) ∧
    noTableWarnings demoWarnings = true :=
  ⟨by decide, rfl, by decide⟩

/-- Claim C7 (amended): a descriptor whose 4-byte range extends past the end
of the buffer fails the very byte-equality test a content mismatch fails, so
it is skipped whole and `create_patches` returns normally (no exception);
exactly as for a content mismatch, a warning reason is recorded when the
descriptor is one of the four code sites, while the two table entries are
skipped without a record. -/
theorem oob_skipped_like_mismatch (data : List Nat) (tw th : Int)
    (nw nh : List Nat) (e : Nat × List Nat × List Nat × String)
    (hw : packU32 tw = Except.ok nw) (hh : packU32 th = Except.ok nh)
    (he : e ∈ descriptorList tw th nw nh)
    (hoob : data.length < e.1 + 4) :
    create_patches data tw th = Except.ok (plan data tw th nw nh) ∧
    slice data e.1 (e.1 + 4) ≠ e.2.1 ∧
    patchOf e ∉ (plan data tw th nw nh).1 ∧
    (SkipWarning.mk e.1 e.2.2.2 ∈ (plan data tw th nw nh).2 ∨
      e.1 = 0xBDA4F0 ∨ e.1 = 0xBDA4F0 + 4) := by
  have h4 : e.2.1.length = 4 := by
    rcases descriptor_cases he with ⟨h1, -⟩ | ⟨h1, -⟩ <;> rw [h1] <;> rfl
  have hne : slice data e.1 (e.1 + 4) ≠ e.2.1 := slice_ne_of_oob h4 hoob
  refine ⟨create_patches_eq hw hh, hne, ?_, ?_⟩
  · intro hmem
    obtain ⟨e', he', heq, hs⟩ := plan_fst_mem.mp hmem
    have hoff : e.1 = e'.1 := congrArg Patch.offset heq
    have hee : e = e' := descriptorList_offset_inj he he' hoff
    rw [hee] at hne
    exact hne hs
  · simp only [descriptorList, List.mem_cons] at he
    rcases he with rfl | rfl | hcode
    · exact Or.inr (Or.inl rfl)
    · exact Or.inr (Or.inr rfl)
    · refine Or.inl ?_
      rw [plan_snd_eq]
      exact planCode_snd_mem.mpr ⟨e, hcode, rfl, hne⟩

/-- Witness for the amended C7: the width code site is out of bounds on the
20-byte buffer, is skipped, and its warning is recorded. -/
theorem oob_skipped_like_mismatch_witness :
    create_patches demoData20 7680 4320 =
      Except.ok (plan demoData20 7680 4320 (u32le 7680) (u32le 4320)) ∧
    slice demoData20 0x054DF7 (0x054DF7 + 4) ≠ u32le 3840 ∧
    patchOf (0x054DF7, u32le 3840, u32le 7680, "Width getter (mov eax, 3840)") ∉
      (plan demoData20 7680 4320 (u32le 7680) (u32le 4320)).1 ∧
    (SkipWarning.mk 0x054DF7 "Width getter (mov eax, 3840)" ∈
        (plan demoData20 7680 4320 (u32le 7680) (u32le 4320)).2 ∨
      (0x054DF7 : Nat) = 0xBDA4F0 ∨ (0x054DF7 : Nat) = 0xBDA4F0 + 4) :=
  oob_skipped_like_mismatch demoData20 7680 4320 (u32le 7680) (u32le 4320)
    (0x054DF7, u32le 3840, u32le 7680, "Width getter (mov eax, 3840)")
    rfl rfl (by simp [descriptorList, codeSites]) (by decide)

/-- Claim C8 counterexample: on the 16-byte buffer nothing is accepted, so
the table-width descriptor (whose bytes mismatch its expected value) is
skipped, yet the only recorded warnings are the four code-site ones — no
report exists for either table entry, so a descriptor is skipped silently,
and no recorded report carries the observed byte values at all. -/
theorem table_skip_silent :
    create_patches demoData 5120 2880 = Except.ok ([], demoWarnings) ∧
    slice demoData 0xBDA4F0 (0xBDA4F0 + 4) ≠ u32le 3840 ∧
    noTableWarnings demoWarnings = true :=
  ⟨rfl, by decide, by decide⟩

/-- Claim C8 (amended): only the four code-site descriptors produce a skip
report; for each of them a warning carrying exactly the offset and the
description (not the expected or observed values) is recorded precisely when
the site's bytes mismatch, while the two resolution-table descriptors never
generate any warning. -/
theorem code_site_warning_iff (data : List Nat) (tw th : Int)
    (nw nh : List Nat) (e : Nat × List Nat × List Nat × String)
    (hw : packU32 tw = Except.ok nw) (hh : packU32 th = Except.ok nh)
    (he : e ∈ codeSites nw nh) :
    create_patches data tw th = Except.ok (plan data tw th nw nh) ∧
    (SkipWarning.mk e.1 e.2.2.2 ∈ (plan data tw th nw nh).2 ↔
      slice data e.1 (e.1 + 4) ≠ e.2.1) ∧
    noTableWarnings (plan data tw th nw nh).2 = true := by
  refine ⟨create_patches_eq hw hh, ?_, ?_⟩
  · rw [plan_snd_eq]
    constructor
    · intro hmem
      obtain ⟨e', he', heq, hs⟩ := planCode_snd_mem.mp hmem
      have hoff : e.1 = e'.1 := congrArg SkipWarning.offset heq
      have hee : e = e' := codeSites_offset_inj he he' hoff
      rw [hee]
      exact hs
    · intro hne
      exact planCode_snd_mem.mpr ⟨e, he, rfl, hne⟩
  · rw [plan_snd_eq, noTableWarnings, List.all_eq_true]
    intro w hwmem
    obtain ⟨e', he', rfl, -⟩ := planCode_snd_mem.mp hwmem
    have hoff := codeSites_offsets he'
    show (!(e'.1 == 0xBDA4F0) && !(e'.1 == 0xBDA4F0 + 4)) = true
    rcases hoff with h | h | h | h <;> rw [h] <;> rfl

/-- Witness for the amended C8: the width code site on the 16-byte buffer
mismatches and its warning is recorded; no table warning exists. -/
theorem code_site_warning_iff_witness :
    create_patches demoData 5120 2880 =
      Except.ok (plan demoData 5120 2880 (u32le 5120) (u32le 2880)) ∧
    (SkipWarning.mk 0x054DF7 "Width getter (mov eax, 3840)" ∈
        (plan demoData 5120 2880 (u32le 5120) (u32le 2880)).2 ↔
      slice demoData 0x054DF7 (0x054DF7 + 4) ≠ u32le 3840) ∧
    noTableWarnings (plan demoData 5120 2880 (u32le 5120) (u32le 2880)).2 = true :=
  code_site_warning_iff demoData 5120 2880 (u32le 5120) (u32le 2880)
    (0x054DF7, u32le 3840, u32le 5120, "Width getter (mov eax, 3840)")
    rfl rfl (by simp [codeSites])

end PatchRes
